import Mathlib

/-!
Verification of the QuantumSolutions knapsack notebook.

We embed the pure parts of `KnapsackProblem.ipynb` (the functions
`build_knapsack_bqm`, `solve_knapsack`, `knapsackSolver`) as Lean
definitions and prove the specification's claims about them.
The remote D-Wave sampler is modelled as an oracle producing one
(sample, energy) pair per remote call; Python's unbounded recursion is
modelled with an explicit fuel parameter, `none` meaning the recursion
did not terminate within the given fuel.
-/

/-- Decimal digits of `n`, little-endian, with explicit fuel (structural
recursion); `digitsLE n n` are the digits of `n` (empty for 0). -/
def digitsLE : Nat → Nat → List Nat
  | 0, _ => []
  | fuel+1, n => if n = 0 then [] else n % 10 :: digitsLE fuel (n / 10)

/-- Model of Python `str(n)` for a natural number: its decimal digits,
most significant first (`[0]` for 0). -/
def str10 (n : Nat) : List Nat :=
  if n = 0 then [0] else (digitsLE n n).reverse

/-- Model of Python `int(s)` on a decimal digit string (most significant
digit first). -/
def int10 (ds : List Nat) : Nat :=
  ds.foldl (fun a d => 10 * a + d) 0

/-- Little-endian valuation of a digit list. -/
def ofDigitsLE : List Nat → Nat
  | [] => 0
  | d :: ds => d + 10 * ofDigitsLE ds

theorem int10_reverse (ds : List Nat) :
    ∀ a : Nat, (ds.reverse).foldl (fun a d => 10 * a + d) a =
      a * 10 ^ ds.length + ofDigitsLE ds := by
  induction ds with
  | nil => intro a; simp [ofDigitsLE]
  | cons d ds ih =>
    intro a
    simp only [List.reverse_cons, List.foldl_append, List.foldl_cons,
      List.foldl_nil, ih a, ofDigitsLE, List.length_cons]
    ring

theorem ofDigitsLE_digitsLE : ∀ (fuel n : Nat), n ≤ fuel →
    ofDigitsLE (digitsLE fuel n) = n := by
  intro fuel
  induction fuel with
  | zero => intro n h; interval_cases n; simp [digitsLE, ofDigitsLE]
  | succ fuel ih =>
    intro n h
    by_cases h0 : n = 0
    · simp [digitsLE, h0, ofDigitsLE]
    · have hdiv : n / 10 ≤ fuel := by
        have : n / 10 < n := Nat.div_lt_self (Nat.pos_of_ne_zero h0) (by omega)
        omega
      simp only [digitsLE, h0, if_false, ofDigitsLE, ih _ hdiv]
      omega

/-- `int(str(n)) = n`: decoding a generated variable index round-trips. -/
theorem int10_str10 (n : Nat) : int10 (str10 n) = n := by
  by_cases h0 : n = 0
  · simp [str10, int10, h0]
  · simp only [str10, h0, if_false, int10]
    rw [int10_reverse]
    simp [ofDigitsLE_digitsLE n n le_rfl]

theorem str10_injective : Function.Injective str10 := by
  intro a b h
  have := int10_str10 a
  rw [h, int10_str10] at this
  omega

/-- A BQM variable name: one leading character followed by a decimal
digit string, modelling Python's `'x' + str(k)` / `'y' + str(k)`. -/
abbrev VarName := Char × List Nat

/-- The name `'x' + str(k)`. -/
def xVar (k : Nat) : VarName := ('x', str10 k)

/-- The name `'y' + str(k)`. -/
def yVar (k : Nat) : VarName := ('y', str10 k)

theorem xVar_injective : Function.Injective xVar := by
  intro a b h
  exact str10_injective (congrArg Prod.snd h)

theorem yVar_injective : Function.Injective yVar := by
  intro a b h
  exact str10_injective (congrArg Prod.snd h)

theorem xVar_ne_yVar (i j : Nat) : xVar i ≠ yVar j := by
  intro h
  have : 'x' = 'y' := congrArg Prod.fst h
  simp at this

/-- Model of Python `max(xs)` on a list of integers (the `[]` case is
junk: Python raises `ValueError` there, which the fallible wrapper
`build_knapsack_bqmE` accounts for). -/
def pyMax : List Int → Int
  | [] => 0
  | a :: t => t.foldl max a

/-- Model of Python `range(a, b)`. -/
def pyRange (a b : Nat) : List Nat := List.range' a (b - a)

/-- The slack-coefficient list built inside `build_knapsack_bqm`:
`y = [2**n for n in range(M)]` followed by `weight_capacity + 1 - 2**M`,
where `M = floor(log2(weight_capacity))`. -/
def slack_y (weight_capacity : Nat) : List Int :=
  (List.range (Nat.log 2 weight_capacity)).map (fun n => (2:Int) ^ n) ++
    [(weight_capacity : Int) + 1 - 2 ^ (Nat.log 2 weight_capacity)]

/-- A binary quadratic model, as the code builds one: an ordered list of
linear-coefficient assignments (`set_linear`) and of quadratic-coefficient
assignments (`bqm.quadratic[key] = v`).  Every key is written exactly
once, so the assignment lists are the resulting coefficient maps. -/
structure BQM where
  linear : List (VarName × Int)
  quadratic : List ((VarName × VarName) × Int)
deriving Repr, DecidableEq

/-- `build_knapsack_bqm(costs, weights, weight_capacity)`: the Lagrangian
relaxation of the knapsack instance, with `lagrange = max(costs)`,
`x_size = len(costs)`, `M = floor(log2(weight_capacity))`,
`num_slack_variables = M + 1`, and the five coefficient families written
by the five loops of the source. -/
def build_knapsack_bqm (costs weights : List Int) (weight_capacity : Nat) : BQM :=
  let lagrange := pyMax costs
  let x_size := costs.length
  let M := Nat.log 2 weight_capacity
  let num_slack_variables := M + 1
  let y := slack_y weight_capacity
  { linear :=
      (List.range x_size).map (fun k =>
        (xVar k, lagrange * (weights.getD k 0) ^ 2 - costs.getD k 0)) ++
      (List.range num_slack_variables).map (fun k =>
        (yVar k, lagrange * (y.getD k 0) ^ 2))
    quadratic :=
      ((List.range x_size).map (fun i => (pyRange (i+1) x_size).map (fun j =>
        ((xVar i, xVar j), 2 * lagrange * weights.getD i 0 * weights.getD j 0)))).flatten ++
      ((List.range num_slack_variables).map (fun i =>
        (pyRange (i+1) num_slack_variables).map (fun j =>
        ((yVar i, yVar j), 2 * lagrange * y.getD i 0 * y.getD j 0)))).flatten ++
      ((List.range x_size).map (fun i => (List.range num_slack_variables).map (fun j =>
        ((xVar i, yVar j), -2 * lagrange * weights.getD i 0 * y.getD j 0)))).flatten }

/-- Energy of a binary BQM on an assignment of values to variables
(dimod semantics, zero offset): sum of linear coefficients times values
plus sum of quadratic coefficients times products of the pair's values. -/
def BQM.energy (b : BQM) (a : VarName → Int) : Int :=
  (b.linear.map (fun p => p.2 * a p.1)).sum +
    (b.quadratic.map (fun q => q.2 * a q.1.1 * a q.1.2)).sum

/-- A sample returned by the remote sampler: a mapping (in iteration
order) from variable name to value. -/
abbrev Sample := List (VarName × Int)

/-- The decoding loop of `solve_knapsack`: every entry whose value is
truthy and whose name starts with `'x'` contributes `int(varname[1:])`
to `selected_item_indices`. -/
def decode_selected (sample : Sample) : List Nat :=
  (sample.filter (fun p => p.2 != 0 && p.1.1 == 'x')).map (fun p => int10 p.1.2)

/-- `sum(list(xdf.loc[selected_item_indices, 'weight']))`: the total
weight of the selected rows of the dataframe's weight column. -/
def total_weight (xdfW : List Int) (selected : List Nat) : Int :=
  (selected.map (fun i => xdfW.getD i 0)).sum

/-- The arguments of one `solve_knapsack` invocation: the costs array,
the weights array, the weight capacity and the dataframe weight column
`xdf['weight']` used by the feasibility check. -/
structure KProblem where
  costs : List Int
  weights : List Int
  weight_capacity : Nat
  xdfW : List Int
deriving Repr, DecidableEq

/-- The remote sampler, modelled as an oracle: call number `k` returns
the pair `(sampleset.first.sample, sampleset.first.energy)`. -/
abbrev Oracle := Nat → Sample × Int

/-- `solve_knapsack`, with explicit fuel for Python's unbounded
recursion (`none` = the recursion makes more than `fuel` nested calls).
Each invocation compiles the BQM, performs one sampler call, decodes the
selected indices, and checks the total weight: if it exceeds the
capacity the function re-invokes itself once with the identical stored
originals and DISCARDS the result (falling off the `if` with Python's
implicit `None`, here `some none`); otherwise it returns
`sorted(selected_item_indices), energy`. -/
def solve_knapsack (P : KProblem) (oracle : Oracle) :
    Nat → Nat → Option (Option (List Nat × Int))
  | 0, _ => none
  | fuel+1, k =>
    let _bqm := build_knapsack_bqm P.costs P.weights P.weight_capacity
    let sample := (oracle k).1
    let energy := (oracle k).2
    let selected := decode_selected sample
    if total_weight P.xdfW selected > (P.weight_capacity : Int) then
      match solve_knapsack P oracle fuel (k+1) with
      | none => none
      | some _ => some none
    else
      some (some (List.insertionSort (· ≤ ·) selected, energy))

/-- Number of sampler jobs issued by `solve_knapsack` (each invocation
issues exactly one, and recursion happens only on capacity violation). -/
def sampler_calls (P : KProblem) (oracle : Oracle) : Nat → Nat → Nat
  | 0, _ => 0
  | fuel+1, k =>
    1 + (if total_weight P.xdfW (decode_selected (oracle k).1) >
          (P.weight_capacity : Int) then
        sampler_calls P oracle fuel (k+1) else 0)

/-- The argument tuples of the successive `solve_knapsack` invocations:
the first invocation's arguments, then (only on capacity violation) the
arguments the retry is re-invoked with. -/
def invocation_args (P : KProblem) (oracle : Oracle) : Nat → Nat → List KProblem
  | 0, _ => []
  | fuel+1, k =>
    P :: (if total_weight P.xdfW (decode_selected (oracle k).1) >
          (P.weight_capacity : Int) then
        invocation_args P oracle fuel (k+1) else [])

/-- The dataframe read by `pd.read_csv(pth, names=['cost','weight'])`. -/
structure DataFrame where
  cost : List Int
  weight : List Int
deriving Repr, DecidableEq

/-- The `KProblem` that `knapsackSolver` passes to `solve_knapsack`:
`solve_knapsack(df['cost'], df['weight'], wt_cap, xdf=df)`. -/
def mkProblem (df : DataFrame) (wt_cap : Nat) : KProblem :=
  ⟨df.cost, df.weight, wt_cap, df.weight⟩

/-- `knapsackSolver`: reads the dataframe, solves, unpacks the result
into two variables, and computes the summary lists from the same
dataframe.  Result: `none` = non-termination within fuel; `some none` =
`solve_knapsack` returned Python `None` and the unpacking raises
`TypeError`; `some (some (indices, energy, weights, costs))` = the
printed summaries. -/
def knapsackSolver (df : DataFrame) (wt_cap : Nat) (oracle : Oracle)
    (fuel : Nat) : Option (Option (List Nat × Int × List Int × List Int)) :=
  match solve_knapsack (mkProblem df wt_cap) oracle fuel 0 with
  | none => none
  | some none => some none
  | some (some (idxs, e)) =>
      some (some (idxs, e,
        idxs.map (fun i => df.weight.getD i 0),
        idxs.map (fun i => df.cost.getD i 0)))

/-- A Python exception surfacing at the process boundary. -/
inductive PyErr
  | valueError (msg : String)
  | typeError (msg : String)
  | ioError (msg : String)
  | vendorError (msg : String)
deriving Repr, DecidableEq

/-- Fallible `build_knapsack_bqm`: `max(costs)` raises `ValueError` on an
empty sequence, and `floor(log2(weight_capacity))` raises `ValueError`
(math domain error) on a non-positive capacity; there is no handler, so
these surface.  On a valid input it is the pure construction. -/
def build_knapsack_bqmE (costs weights : List Int) (weight_capacity : Int) :
    Except PyErr BQM :=
  if costs = [] then .error (.valueError "max() arg is an empty sequence")
  else if weight_capacity ≤ 0 then .error (.valueError "math domain error")
  else .ok (build_knapsack_bqm costs weights weight_capacity.toNat)

/-- A fallible sampler oracle: a remote call may raise. -/
abbrev OracleE := Nat → Except PyErr (Sample × Int)

/-- Fallible `solve_knapsack`: the function body contains no
`try`/`except`, so an exception raised by `build_knapsack_bqm`, by the
remote sampler call, or inside the recursive retry propagates to the
caller unchanged. -/
def solve_knapsackE (P : KProblem) (oracle : OracleE) :
    Nat → Nat → Option (Except PyErr (Option (List Nat × Int)))
  | 0, _ => none
  | fuel+1, k =>
    match build_knapsack_bqmE P.costs P.weights (P.weight_capacity : Int) with
    | .error e => some (.error e)
    | .ok _bqm =>
      match oracle k with
      | .error e => some (.error e)
      | .ok (sample, energy) =>
        let selected := decode_selected sample
        if total_weight P.xdfW selected > (P.weight_capacity : Int) then
          match solve_knapsackE P oracle fuel (k+1) with
          | none => none
          | some (.error e) => some (.error e)
          | some (.ok _) => some (.ok none)
        else
          some (.ok (some (List.insertionSort (· ≤ ·) selected, energy)))

/-- Fallible `knapsackSolver`: `pd.read_csv` may raise; unpacking the
`None` returned by a failed `solve_knapsack` raises `TypeError`; no
exception is caught anywhere, so every failure surfaces at the process
boundary. -/
def knapsackSolverE (file : Except PyErr DataFrame) (wt_cap : Nat)
    (oracle : OracleE) (fuel : Nat) :
    Option (Except PyErr (List Nat × Int × List Int × List Int)) :=
  match file with
  | .error e => some (.error e)
  | .ok df =>
    match solve_knapsackE (mkProblem df wt_cap) oracle fuel 0 with
    | none => none
    | some (.error e) => some (.error e)
    | some (.ok none) =>
        some (.error (.typeError "cannot unpack non-iterable NoneType object"))
    | some (.ok (some (idxs, e))) =>
        some (.ok (idxs, e,
          idxs.map (fun i => df.weight.getD i 0),
          idxs.map (fun i => df.cost.getD i 0)))

theorem sum_map_range (f : Nat → Int) :
    ∀ n, ((List.range n).map f).sum = ∑ k ∈ Finset.range n, f k := by
  intro n
  induction n with
  | zero => simp
  | succ n ih => simp [List.range_succ, Finset.sum_range_succ, ih]

theorem sum_map_range' (f : Nat → Int) :
    ∀ len s, ((List.range' s len).map f).sum = ∑ j ∈ Finset.Ico s (s + len), f j := by
  intro len
  induction len with
  | zero => simp
  | succ len ih =>
    intro s
    rw [List.range'_succ]
    simp only [List.map_cons, List.sum_cons, ih (s+1)]
    rw [Finset.sum_eq_sum_Ico_succ_bot (by omega : s < s + (len + 1))]
    have h : s + (len + 1) = s + 1 + len := by omega
    rw [h]

theorem sum_map_pyRange (f : Nat → Int) (a b : Nat) :
    ((pyRange a b).map f).sum = ∑ j ∈ Finset.Ico a b, f j := by
  unfold pyRange
  rcases Nat.le_total a b with h | h
  · rw [sum_map_range']
    have : a + (b - a) = b := by omega
    rw [this]
  · have h1 : b - a = 0 := by omega
    have h2 : Finset.Ico a b = ∅ := Finset.Ico_eq_empty (by omega)
    simp [h1, h2]

theorem sum_map_flatten {α : Type} (g : α → Int) (L : List (List α)) :
    ((L.flatten).map g).sum = (L.map (fun l => (l.map g).sum)).sum := by
  induction L with
  | nil => simp
  | cons l L ih => simp [ih, Function.comp_def]

/-- Expansion of the square of a weighted sum of 0/1 variables: the
diagonal terms collapse (`u i ^ 2 = u i`) and the off-diagonal terms
pair up over `i < j`. -/
theorem sq_expand (f u : Nat → Int) (hu : ∀ i, u i = 0 ∨ u i = 1) :
    ∀ n, (∑ i ∈ Finset.range n, f i * u i) ^ 2 =
      ∑ i ∈ Finset.range n, f i ^ 2 * u i +
        2 * ∑ i ∈ Finset.range n, ∑ j ∈ Finset.Ico (i+1) n, f i * f j * (u i * u j) := by
  intro n
  induction n with
  | zero => simp
  | succ n ih =>
    have hsq : u n ^ 2 = u n := by rcases hu n with h | h <;> simp [h]
    have hDouble :
        ∑ i ∈ Finset.range (n+1), ∑ j ∈ Finset.Ico (i+1) (n+1), f i * f j * (u i * u j)
          = (∑ i ∈ Finset.range n, ∑ j ∈ Finset.Ico (i+1) n, f i * f j * (u i * u j))
            + ∑ i ∈ Finset.range n, f i * f n * (u i * u n) := by
      rw [Finset.sum_range_succ]
      have h1 : ∑ j ∈ Finset.Ico (n+1) (n+1), f n * f j * (u n * u j) = 0 := by simp
      rw [h1, add_zero, ← Finset.sum_add_distrib]
      refine Finset.sum_congr rfl ?_
      intro i hi
      exact Finset.sum_Ico_succ_top (Finset.mem_range.mp hi) _
    have hS : (∑ i ∈ Finset.range n, f i * u i) * (f n * u n)
        = ∑ i ∈ Finset.range n, f i * f n * (u i * u n) := by
      rw [Finset.sum_mul]
      refine Finset.sum_congr rfl ?_
      intro i _
      ring
    rw [Finset.sum_range_succ (f := fun i => f i * u i),
      Finset.sum_range_succ (f := fun i => f i ^ 2 * u i), hDouble]
    linear_combination ih + 2 * hS + f n ^ 2 * hsq

theorem mem_pyRange {a b j : Nat} : j ∈ pyRange a b ↔ a ≤ j ∧ j < b := by
  unfold pyRange
  rw [List.mem_range'_1]
  omega

/-- The energy of the BQM built by `build_knapsack_bqm`, decomposed into
the five coefficient families, as sums over index ranges. -/
theorem energy_build (costs weights : List Int) (W : Nat) (a : VarName → Int) :
    (build_knapsack_bqm costs weights W).energy a =
      (∑ k ∈ Finset.range costs.length,
        (pyMax costs * (weights.getD k 0) ^ 2 - costs.getD k 0) * a (xVar k))
      + (∑ k ∈ Finset.range (Nat.log 2 W + 1),
        (pyMax costs * ((slack_y W).getD k 0) ^ 2) * a (yVar k))
      + (∑ i ∈ Finset.range costs.length, ∑ j ∈ Finset.Ico (i+1) costs.length,
        (2 * pyMax costs * weights.getD i 0 * weights.getD j 0) * a (xVar i) * a (xVar j))
      + (∑ i ∈ Finset.range (Nat.log 2 W + 1), ∑ j ∈ Finset.Ico (i+1) (Nat.log 2 W + 1),
        (2 * pyMax costs * (slack_y W).getD i 0 * (slack_y W).getD j 0) * a (yVar i) * a (yVar j))
      + (∑ i ∈ Finset.range costs.length, ∑ j ∈ Finset.range (Nat.log 2 W + 1),
        (-2 * pyMax costs * weights.getD i 0 * (slack_y W).getD j 0) * a (xVar i) * a (yVar j)) := by
  simp only [build_knapsack_bqm, BQM.energy, List.map_append, List.sum_append,
    sum_map_flatten, List.map_map, Function.comp_def, sum_map_range, sum_map_pyRange]
  ring

theorem linear_keys_build (costs weights : List Int) (W : Nat) :
    ((build_knapsack_bqm costs weights W).linear.map Prod.fst) =
      (List.range costs.length).map xVar ++
        (List.range (Nat.log 2 W + 1)).map yVar := by
  simp [build_knapsack_bqm, List.map_map, Function.comp_def]

theorem nodup_linear_keys (costs weights : List Int) (W : Nat) :
    ((build_knapsack_bqm costs weights W).linear.map Prod.fst).Nodup := by
  rw [linear_keys_build, List.nodup_append]
  refine ⟨(List.nodup_range _).map xVar_injective,
    (List.nodup_range _).map yVar_injective, ?_⟩
  rw [List.disjoint_left]
  intro v hv hv'
  rcases List.mem_map.mp hv with ⟨i, _, rfl⟩
  rcases List.mem_map.mp hv' with ⟨j, _, hj⟩
  exact xVar_ne_yVar i j hj.symm

theorem quadratic_keys_build (costs weights : List Int) (W : Nat) :
    ((build_knapsack_bqm costs weights W).quadratic.map Prod.fst) =
      ((List.range costs.length).map (fun i =>
        (pyRange (i+1) costs.length).map (fun j => (xVar i, xVar j)))).flatten ++
      ((List.range (Nat.log 2 W + 1)).map (fun i =>
        (pyRange (i+1) (Nat.log 2 W + 1)).map (fun j => (yVar i, yVar j)))).flatten ++
      ((List.range costs.length).map (fun i =>
        (List.range (Nat.log 2 W + 1)).map (fun j => (xVar i, yVar j)))).flatten := by
  simp [build_knapsack_bqm, List.map_flatten, List.map_map, Function.comp_def]

theorem nodup_pair_block {f g : Nat → VarName} (hf : Function.Injective f)
    (hg : Function.Injective g) (n : Nat) (inner : Nat → List Nat)
    (hinner : ∀ i, (inner i).Nodup) :
    (((List.range n).map (fun i => (inner i).map (fun j => (f i, g j)))).flatten).Nodup := by
  rw [List.nodup_flatten]
  constructor
  · intro l hl
    rcases List.mem_map.mp hl with ⟨i, _, rfl⟩
    refine (hinner i).map ?_
    intro a b hab
    exact hg (congrArg Prod.snd hab)
  · rw [List.pairwise_map]
    refine List.Pairwise.imp ?_ (List.pairwise_lt_range n)
    intro i j hij p hp hp'
    rcases List.mem_map.mp hp with ⟨a, _, rfl⟩
    rcases List.mem_map.mp hp' with ⟨b, _, hb⟩
    have : i = j := hf (congrArg Prod.fst hb.symm)
    omega

theorem nodup_quadratic_keys (costs weights : List Int) (W : Nat) :
    ((build_knapsack_bqm costs weights W).quadratic.map Prod.fst).Nodup := by
  rw [quadratic_keys_build, List.nodup_append, List.nodup_append]
  have hxx := nodup_pair_block xVar_injective xVar_injective costs.length
    (fun i => pyRange (i+1) costs.length) (fun i => List.nodup_range' _ _)
  have hyy := nodup_pair_block yVar_injective yVar_injective (Nat.log 2 W + 1)
    (fun i => pyRange (i+1) (Nat.log 2 W + 1)) (fun i => List.nodup_range' _ _)
  have hxy := nodup_pair_block xVar_injective yVar_injective costs.length
    (fun _ => List.range (Nat.log 2 W + 1)) (fun _ => List.nodup_range _)
  refine ⟨⟨hxx, hyy, ?_⟩, hxy, ?_⟩
  · rw [List.disjoint_left]
    intro p hp hp'
    rcases List.mem_flatten.mp hp with ⟨l, hl, hpl⟩
    rcases List.mem_map.mp hl with ⟨i, _, rfl⟩
    rcases List.mem_map.mp hpl with ⟨a, _, rfl⟩
    rcases List.mem_flatten.mp hp' with ⟨l', hl', hpl'⟩
    rcases List.mem_map.mp hl' with ⟨i', _, rfl⟩
    rcases List.mem_map.mp hpl' with ⟨b, _, hb⟩
    exact xVar_ne_yVar i i' (congrArg Prod.fst hb).symm
  · rw [List.disjoint_left]
    intro p hp hp'
    rcases List.mem_append.mp hp with h | h
    · rcases List.mem_flatten.mp h with ⟨l, hl, hpl⟩
      rcases List.mem_map.mp hl with ⟨i, _, rfl⟩
      rcases List.mem_map.mp hpl with ⟨a, _, rfl⟩
      rcases List.mem_flatten.mp hp' with ⟨l', hl', hpl'⟩
      rcases List.mem_map.mp hl' with ⟨i', _, rfl⟩
      rcases List.mem_map.mp hpl' with ⟨b, _, hb⟩
      exact xVar_ne_yVar a b (congrArg Prod.snd hb).symm
    · rcases List.mem_flatten.mp h with ⟨l, hl, hpl⟩
      rcases List.mem_map.mp hl with ⟨i, _, rfl⟩
      rcases List.mem_map.mp hpl with ⟨a, _, rfl⟩
      rcases List.mem_flatten.mp hp' with ⟨l', hl', hpl'⟩
      rcases List.mem_map.mp hl' with ⟨i', _, rfl⟩
      rcases List.mem_map.mp hpl' with ⟨b, _, hb⟩
      exact xVar_ne_yVar i' i (congrArg Prod.fst hb)

theorem mem_linear_x (costs weights : List Int) (W : Nat) {k : Nat}
    (hk : k < costs.length) :
    (xVar k, pyMax costs * (weights.getD k 0) ^ 2 - costs.getD k 0) ∈
      (build_knapsack_bqm costs weights W).linear := by
  simp only [build_knapsack_bqm]
  exact List.mem_append_left _
    (List.mem_map.mpr ⟨k, List.mem_range.mpr hk, rfl⟩)

theorem mem_linear_y (costs weights : List Int) (W : Nat) {k : Nat}
    (hk : k < Nat.log 2 W + 1) :
    (yVar k, pyMax costs * ((slack_y W).getD k 0) ^ 2) ∈
      (build_knapsack_bqm costs weights W).linear := by
  simp only [build_knapsack_bqm]
  exact List.mem_append_right _
    (List.mem_map.mpr ⟨k, List.mem_range.mpr hk, rfl⟩)

theorem mem_quad_xx (costs weights : List Int) (W : Nat) {i j : Nat}
    (hij : i < j) (hj : j < costs.length) :
    ((xVar i, xVar j), 2 * pyMax costs * weights.getD i 0 * weights.getD j 0) ∈
      (build_knapsack_bqm costs weights W).quadratic := by
  simp only [build_knapsack_bqm]
  refine List.mem_append_left _ (List.mem_append_left _ ?_)
  refine List.mem_flatten.mpr ⟨_, List.mem_map.mpr
    ⟨i, List.mem_range.mpr (by omega), rfl⟩, ?_⟩
  exact List.mem_map.mpr ⟨j, mem_pyRange.mpr ⟨by omega, hj⟩, rfl⟩

theorem mem_quad_yy (costs weights : List Int) (W : Nat) {i j : Nat}
    (hij : i < j) (hj : j < Nat.log 2 W + 1) :
    ((yVar i, yVar j), 2 * pyMax costs * (slack_y W).getD i 0 * (slack_y W).getD j 0) ∈
      (build_knapsack_bqm costs weights W).quadratic := by
  simp only [build_knapsack_bqm]
  refine List.mem_append_left _ (List.mem_append_right _ ?_)
  refine List.mem_flatten.mpr ⟨_, List.mem_map.mpr
    ⟨i, List.mem_range.mpr (by omega), rfl⟩, ?_⟩
  exact List.mem_map.mpr ⟨j, mem_pyRange.mpr ⟨by omega, hj⟩, rfl⟩

theorem mem_quad_xy (costs weights : List Int) (W : Nat) {i j : Nat}
    (hi : i < costs.length) (hj : j < Nat.log 2 W + 1) :
    ((xVar i, yVar j), -2 * pyMax costs * weights.getD i 0 * (slack_y W).getD j 0) ∈
      (build_knapsack_bqm costs weights W).quadratic := by
  simp only [build_knapsack_bqm]
  refine List.mem_append_right _ ?_
  refine List.mem_flatten.mpr ⟨_, List.mem_map.mpr
    ⟨i, List.mem_range.mpr hi, rfl⟩, ?_⟩
  exact List.mem_map.mpr ⟨j, List.mem_range.mpr hj, rfl⟩

/-- C1: for every non-empty costs list, equal-length weights list and
weight capacity `W ≥ 1`, the BQM built by `build_knapsack_bqm` is exactly
the Lagrangian relaxation of the knapsack instance: with
`lagrange = max(costs)`, `M = floor(log2 W)` and slack coefficients
`slack_y W = [2^0, …, 2^(M-1), W + 1 - 2^M]`, its energy on any 0/1
assignment to the x and y variables equals
`lagrange * (Σ weights[k]·x_k − Σ y[j]·y_j)² − Σ costs[k]·x_k`, and the
written coefficients are the stated closed forms (the linear coefficient
of `x_k` is `lagrange·weights[k]² − costs[k]`, the quadratic coefficient
of `(x_i, x_j)` is `2·lagrange·weights[i]·weights[j]`, the linear
coefficient of `y_k` is `lagrange·y[k]²`, the quadratic coefficient of
`(y_i, y_j)` is `2·lagrange·y[i]·y[j]`, and the quadratic coefficient of
`(x_i, y_j)` is `−2·lagrange·weights[i]·y[j]`), each key being written
exactly once. -/
theorem claim_C1 (costs weights : List Int) (W : Nat) (a : VarName → Int)
    (hc : costs ≠ []) (hlen : weights.length = costs.length) (hW : 1 ≤ W)
    (ha : ∀ v, a v = 0 ∨ a v = 1) :
    (build_knapsack_bqm costs weights W).energy a =
      pyMax costs *
        ((∑ k ∈ Finset.range costs.length, weights.getD k 0 * a (xVar k)) -
          ∑ j ∈ Finset.range (Nat.log 2 W + 1), (slack_y W).getD j 0 * a (yVar j)) ^ 2
      - ∑ k ∈ Finset.range costs.length, costs.getD k 0 * a (xVar k)
    ∧ (∀ k, k < costs.length →
        (xVar k, pyMax costs * (weights.getD k 0) ^ 2 - costs.getD k 0) ∈
          (build_knapsack_bqm costs weights W).linear)
    ∧ (∀ i j, i < j → j < costs.length →
        ((xVar i, xVar j), 2 * pyMax costs * weights.getD i 0 * weights.getD j 0) ∈
          (build_knapsack_bqm costs weights W).quadratic)
    ∧ (∀ k, k < Nat.log 2 W + 1 →
        (yVar k, pyMax costs * ((slack_y W).getD k 0) ^ 2) ∈
          (build_knapsack_bqm costs weights W).linear)
    ∧ (∀ i j, i < j → j < Nat.log 2 W + 1 →
        ((yVar i, yVar j), 2 * pyMax costs * (slack_y W).getD i 0 * (slack_y W).getD j 0) ∈
          (build_knapsack_bqm costs weights W).quadratic)
    ∧ (∀ i j, i < costs.length → j < Nat.log 2 W + 1 →
        ((xVar i, yVar j), -2 * pyMax costs * weights.getD i 0 * (slack_y W).getD j 0) ∈
          (build_knapsack_bqm costs weights W).quadratic)
    ∧ ((build_knapsack_bqm costs weights W).linear.map Prod.fst).Nodup
    ∧ ((build_knapsack_bqm costs weights W).quadratic.map Prod.fst).Nodup := by
  refine ⟨?_, fun k hk => mem_linear_x costs weights W hk,
    fun i j hij hj => mem_quad_xx costs weights W hij hj,
    fun k hk => mem_linear_y costs weights W hk,
    fun i j hij hj => mem_quad_yy costs weights W hij hj,
    fun i j hi hj => mem_quad_xy costs weights W hi hj,
    nodup_linear_keys costs weights W, nodup_quadratic_keys costs weights W⟩
  rw [energy_build]
  have hx : ∀ i : Nat, a (xVar i) = 0 ∨ a (xVar i) = 1 := fun i => ha _
  have hy : ∀ j : Nat, a (yVar j) = 0 ∨ a (yVar j) = 1 := fun j => ha _
  have e1 : (∑ k ∈ Finset.range costs.length,
      (pyMax costs * (weights.getD k 0) ^ 2 - costs.getD k 0) * a (xVar k)) =
      pyMax costs *
        (∑ k ∈ Finset.range costs.length, (weights.getD k 0) ^ 2 * a (xVar k))
      - ∑ k ∈ Finset.range costs.length, costs.getD k 0 * a (xVar k) := by
    rw [Finset.mul_sum, ← Finset.sum_sub_distrib]
    exact Finset.sum_congr rfl fun k _ => by ring
  have e2 : (∑ k ∈ Finset.range (Nat.log 2 W + 1),
      (pyMax costs * ((slack_y W).getD k 0) ^ 2) * a (yVar k)) =
      pyMax costs *
        ∑ k ∈ Finset.range (Nat.log 2 W + 1), ((slack_y W).getD k 0) ^ 2 * a (yVar k) := by
    rw [Finset.mul_sum]
    exact Finset.sum_congr rfl fun k _ => by ring
  have e3 : (∑ i ∈ Finset.range costs.length, ∑ j ∈ Finset.Ico (i+1) costs.length,
      (2 * pyMax costs * weights.getD i 0 * weights.getD j 0) * a (xVar i) * a (xVar j)) =
      2 * (pyMax costs *
        ∑ i ∈ Finset.range costs.length, ∑ j ∈ Finset.Ico (i+1) costs.length,
          weights.getD i 0 * weights.getD j 0 * (a (xVar i) * a (xVar j))) := by
    rw [Finset.mul_sum, Finset.mul_sum]
    refine Finset.sum_congr rfl fun i _ => ?_
    rw [Finset.mul_sum, Finset.mul_sum]
    exact Finset.sum_congr rfl fun j _ => by ring
  have e4 : (∑ i ∈ Finset.range (Nat.log 2 W + 1),
      ∑ j ∈ Finset.Ico (i+1) (Nat.log 2 W + 1),
      (2 * pyMax costs * (slack_y W).getD i 0 * (slack_y W).getD j 0) *
        a (yVar i) * a (yVar j)) =
      2 * (pyMax costs *
        ∑ i ∈ Finset.range (Nat.log 2 W + 1), ∑ j ∈ Finset.Ico (i+1) (Nat.log 2 W + 1),
          (slack_y W).getD i 0 * (slack_y W).getD j 0 * (a (yVar i) * a (yVar j))) := by
    rw [Finset.mul_sum, Finset.mul_sum]
    refine Finset.sum_congr rfl fun i _ => ?_
    rw [Finset.mul_sum, Finset.mul_sum]
    exact Finset.sum_congr rfl fun j _ => by ring
  have e5 : (∑ i ∈ Finset.range costs.length, ∑ j ∈ Finset.range (Nat.log 2 W + 1),
      (-2 * pyMax costs * weights.getD i 0 * (slack_y W).getD j 0) *
        a (xVar i) * a (yVar j)) =
      -2 * (pyMax costs *
        ∑ i ∈ Finset.range costs.length, ∑ j ∈ Finset.range (Nat.log 2 W + 1),
          (weights.getD i 0 * a (xVar i)) * ((slack_y W).getD j 0 * a (yVar j))) := by
    rw [Finset.mul_sum, Finset.mul_sum]
    refine Finset.sum_congr rfl fun i _ => ?_
    rw [Finset.mul_sum, Finset.mul_sum]
    exact Finset.sum_congr rfl fun j _ => by ring
  have hA2 : (∑ i ∈ Finset.range costs.length, weights.getD i 0 * a (xVar i)) ^ 2 =
      ∑ i ∈ Finset.range costs.length, (weights.getD i 0) ^ 2 * a (xVar i) +
        2 * ∑ i ∈ Finset.range costs.length, ∑ j ∈ Finset.Ico (i+1) costs.length,
          weights.getD i 0 * weights.getD j 0 * (a (xVar i) * a (xVar j)) :=
    sq_expand (fun k => weights.getD k 0) (fun k => a (xVar k)) hx costs.length
  have hB2 : (∑ j ∈ Finset.range (Nat.log 2 W + 1), (slack_y W).getD j 0 * a (yVar j)) ^ 2 =
      ∑ j ∈ Finset.range (Nat.log 2 W + 1), ((slack_y W).getD j 0) ^ 2 * a (yVar j) +
        2 * ∑ i ∈ Finset.range (Nat.log 2 W + 1), ∑ j ∈ Finset.Ico (i+1) (Nat.log 2 W + 1),
          (slack_y W).getD i 0 * (slack_y W).getD j 0 * (a (yVar i) * a (yVar j)) :=
    sq_expand (fun j => (slack_y W).getD j 0) (fun j => a (yVar j)) hy (Nat.log 2 W + 1)
  have hAB : (∑ i ∈ Finset.range costs.length, weights.getD i 0 * a (xVar i)) *
      (∑ j ∈ Finset.range (Nat.log 2 W + 1), (slack_y W).getD j 0 * a (yVar j)) =
      ∑ i ∈ Finset.range costs.length, ∑ j ∈ Finset.range (Nat.log 2 W + 1),
        (weights.getD i 0 * a (xVar i)) * ((slack_y W).getD j 0 * a (yVar j)) :=
    Finset.sum_mul_sum _ _ _ _
  rw [e1, e2, e3, e4, e5]
  linear_combination (-(pyMax costs)) * hA2 - pyMax costs * hB2 +
    2 * pyMax costs * hAB

theorem claim_C1_witness :
    (([2] : List Int) ≠ [] ∧ ([3] : List Int).length = ([2] : List Int).length ∧
      1 ≤ 1) ∧
    (build_knapsack_bqm [2] [3] 1).energy (fun _ => 0) =
      pyMax [2] *
        ((∑ k ∈ Finset.range ([2] : List Int).length, ([3] : List Int).getD k 0 * 0) -
          ∑ j ∈ Finset.range (Nat.log 2 1 + 1), (slack_y 1).getD j 0 * 0) ^ 2
      - ∑ k ∈ Finset.range ([2] : List Int).length, ([2] : List Int).getD k 0 * 0 :=
  ⟨⟨by decide, rfl, le_rfl⟩,
    (claim_C1 [2] [3] 1 (fun _ => 0) (by decide) rfl le_rfl
      (fun _ => Or.inl rfl)).1⟩

/-- C2: whenever `solve_knapsack` returns a (selected indices, energy)
tuple rather than `None`, the total of the `xdf` weights at the selected
indices does not exceed the weight capacity (the check happens on the
decoded sample, after the remote call). -/
theorem claim_C2 (P : KProblem) (oracle : Oracle) (fuel k : Nat)
    (r : List Nat × Int)
    (h : solve_knapsack P oracle fuel k = some (some r)) :
    total_weight P.xdfW r.1 ≤ (P.weight_capacity : Int) := by
  cases fuel with
  | zero => simp [solve_knapsack] at h
  | succ fuel =>
    simp only [solve_knapsack] at h
    split at h
    · split at h
      · exact absurd h (by simp)
      · exact absurd (Option.some.inj h) (by simp)
    · rename_i hcond
      have h2 : (List.insertionSort (· ≤ ·) (decode_selected (oracle k).1),
          (oracle k).2) = r := Option.some.inj (Option.some.inj h)
      have hperm : r.1.Perm (decode_selected (oracle k).1) := by
        rw [← h2]
        exact List.perm_insertionSort _ _
      have hsum : total_weight P.xdfW r.1 =
          total_weight P.xdfW (decode_selected (oracle k).1) :=
        (hperm.map _).sum_eq
      rw [hsum]
      exact not_lt.mp hcond

theorem claim_C2_witness :
    solve_knapsack ⟨[5], [1], 1, [1]⟩ (fun _ => ([(xVar 0, 1)], 5)) 1 0 =
      some (some ([0], 5)) ∧
    total_weight (KProblem.xdfW ⟨[5], [1], 1, [1]⟩) ([0], (5:Int)).1 ≤
      ((KProblem.weight_capacity ⟨[5], [1], 1, [1]⟩ : Nat) : Int) :=
  ⟨by decide,
    claim_C2 ⟨[5], [1], 1, [1]⟩ (fun _ => ([(xVar 0, 1)], 5)) 1 0 ([0], 5)
      (by decide)⟩

/-- C3: for every sample mapping variable names to 0/1 values, the
decoded selected-item list consists of exactly those `i` whose variable
`'x' + str(i)` has a truthy value (slack `'y'` variables never
contribute), it has no duplicates, and on the feasible path
`solve_knapsack` returns it sorted in ascending order (together with the
sample's energy). -/
theorem claim_C3 (P : KProblem) (oracle : Oracle) (fuel k : Nat)
    (hkeys : ∀ p ∈ (oracle k).1, (∃ i, p.1 = xVar i) ∨ (∃ j, p.1 = yVar j))
    (hvals : ∀ p ∈ (oracle k).1, p.2 = 0 ∨ p.2 = 1)
    (hnodup : ((oracle k).1.map Prod.fst).Nodup)
    (hfeas : ¬ total_weight P.xdfW (decode_selected (oracle k).1) >
      (P.weight_capacity : Int)) :
    (∀ i, i ∈ decode_selected (oracle k).1 ↔ (xVar i, 1) ∈ (oracle k).1)
    ∧ (decode_selected (oracle k).1).Nodup
    ∧ solve_knapsack P oracle (fuel+1) k =
        some (some (List.insertionSort (· ≤ ·) (decode_selected (oracle k).1),
          (oracle k).2))
    ∧ (List.insertionSort (· ≤ ·) (decode_selected (oracle k).1)).Sorted (· ≤ ·)
    ∧ (List.insertionSort (· ≤ ·) (decode_selected (oracle k).1)).Perm
        (decode_selected (oracle k).1) := by
  refine ⟨?_, ?_, ?_, List.sorted_insertionSort _ _, List.perm_insertionSort _ _⟩
  · intro i
    constructor
    · intro hi
      rcases List.mem_map.mp hi with ⟨p, hpf, hdec⟩
      rcases List.mem_filter.mp hpf with ⟨hps, hpred⟩
      rcases Bool.and_eq_true .. |>.mp hpred with ⟨hv, hx⟩
      have hv' : p.2 ≠ 0 := by simpa using hv
      have hx' : p.1.1 = 'x' := by simpa using hx
      have hp2 : p.2 = 1 := by
        rcases hvals p hps with h | h
        · exact absurd h hv'
        · exact h
      rcases hkeys p hps with ⟨i', hxi⟩ | ⟨j, hyj⟩
      · have : int10 (str10 i') = i := by
          rw [hxi] at hdec
          exact hdec
        rw [int10_str10] at this
        subst this
        have : p = (xVar i', 1) := by
          rcases p with ⟨pn, pv⟩
          simp only at hxi hp2
          rw [hxi, hp2]
        rw [← this]
        exact hps
      · rw [hyj] at hx'
        simp [yVar] at hx'
    · intro hmem
      refine List.mem_map.mpr ⟨(xVar i, 1), ?_, ?_⟩
      · refine List.mem_filter.mpr ⟨hmem, ?_⟩
        simp [xVar]
      · exact int10_str10 i
  · have hsn : (oracle k).1.Nodup := List.Nodup.of_map _ hnodup
    have hfn := hsn.filter (fun p => p.2 != 0 && p.1.1 == 'x')
    refine hfn.map_on ?_
    intro p hp q hq hval
    rcases List.mem_filter.mp hp with ⟨hps, hppred⟩
    rcases List.mem_filter.mp hq with ⟨hqs, hqpred⟩
    rcases Bool.and_eq_true .. |>.mp hppred with ⟨_, hpx⟩
    rcases Bool.and_eq_true .. |>.mp hqpred with ⟨_, hqx⟩
    have hpx' : p.1.1 = 'x' := by simpa using hpx
    have hqx' : q.1.1 = 'x' := by simpa using hqx
    have hpk : ∃ i, p.1 = xVar i := by
      rcases hkeys p hps with h | ⟨j, hyj⟩
      · exact h
      · rw [hyj] at hpx'
        simp [yVar] at hpx'
    have hqk : ∃ i, q.1 = xVar i := by
      rcases hkeys q hqs with h | ⟨j, hyj⟩
      · exact h
      · rw [hyj] at hqx'
        simp [yVar] at hqx'
    rcases hpk with ⟨i, hpi⟩
    rcases hqk with ⟨i', hqi⟩
    rw [hpi, hqi] at hval
    have : i = i' := by
      have h1 := int10_str10 i
      have h2 := int10_str10 i'
      simp only [xVar] at hval
      rw [hval] at h1
      rw [h2] at h1
      omega
    subst this
    exact List.inj_on_of_nodup_map hnodup hps hqs (by rw [hpi, hqi])
  · simp only [solve_knapsack]
    rw [if_neg hfeas]

theorem claim_C3_witness :
    ((∀ p ∈ [(xVar 0, (1:Int)), (yVar 0, 0)], p.2 = 0 ∨ p.2 = 1) ∧
      ([(xVar 0, (1:Int)), (yVar 0, 0)].map Prod.fst).Nodup) ∧
    (0 ∈ decode_selected [(xVar 0, 1), (yVar 0, 0)] ↔
      (xVar 0, (1:Int)) ∈ [(xVar 0, (1:Int)), (yVar 0, 0)]) ∧
    solve_knapsack ⟨[5], [1], 2, [1]⟩
        (fun _ => ([(xVar 0, 1), (yVar 0, 0)], 7)) 1 0 =
      some (some (List.insertionSort (· ≤ ·)
        (decode_selected [(xVar 0, 1), (yVar 0, 0)]), 7)) := by
  have hkeys : ∀ p ∈ [(xVar 0, (1:Int)), (yVar 0, 0)],
      (∃ i, p.1 = xVar i) ∨ (∃ j, p.1 = yVar j) := by
    intro p hp
    rcases List.mem_cons.mp hp with rfl | hp
    · exact Or.inl ⟨0, rfl⟩
    rcases List.mem_cons.mp hp with rfl | hp
    · exact Or.inr ⟨0, rfl⟩
    · exact absurd hp (List.not_mem_nil p)
  have h := claim_C3 ⟨[5], [1], 2, [1]⟩
    (fun _ => ([(xVar 0, 1), (yVar 0, 0)], 7)) 0 0
    hkeys (by decide) (by decide) (by decide)
  exact ⟨⟨by decide, by decide⟩, h.1 0, h.2.2.1⟩

theorem solve_knapsack_infeasible_step (P : KProblem) (oracle : Oracle)
    (fuel k : Nat)
    (h : total_weight P.xdfW (decode_selected (oracle k).1) >
      (P.weight_capacity : Int)) :
    solve_knapsack P oracle (fuel+1) k =
      match solve_knapsack P oracle fuel (k+1) with
      | none => none
      | some _ => some none := by
  simp only [solve_knapsack]
  rw [if_pos h]

theorem solve_knapsack_feasible_step (P : KProblem) (oracle : Oracle)
    (fuel k : Nat)
    (h : ¬ total_weight P.xdfW (decode_selected (oracle k).1) >
      (P.weight_capacity : Int)) :
    solve_knapsack P oracle (fuel+1) k =
      some (some (List.insertionSort (· ≤ ·) (decode_selected (oracle k).1),
        (oracle k).2)) := by
  simp only [solve_knapsack]
  rw [if_neg h]

/-- C4: when the decoded solution's total weight exceeds the capacity,
`solve_knapsack` performs a single blind retry: it re-invokes itself once
with the identical original problem arguments `P` (and discards that
value), issuing exactly one extra sampler job; if the retry's sample is
feasible, exactly two sampler jobs are issued in total. -/
theorem claim_C4 (P : KProblem) (oracle : Oracle) (fuel k : Nat)
    (h : total_weight P.xdfW (decode_selected (oracle k).1) >
      (P.weight_capacity : Int)) :
    (solve_knapsack P oracle (fuel+1) k =
      match solve_knapsack P oracle fuel (k+1) with
      | none => none
      | some _ => some none)
    ∧ sampler_calls P oracle (fuel+1) k = 1 + sampler_calls P oracle fuel (k+1)
    ∧ (¬ total_weight P.xdfW (decode_selected (oracle (k+1)).1) >
        (P.weight_capacity : Int) →
        sampler_calls P oracle (fuel+2) k = 2) := by
  refine ⟨solve_knapsack_infeasible_step P oracle fuel k h, ?_, ?_⟩
  · simp only [sampler_calls]
    rw [if_pos h]
  · intro h2
    simp only [sampler_calls]
    rw [if_pos h, if_neg h2]

theorem claim_C4_witness :
    total_weight (KProblem.xdfW ⟨[5], [2], 1, [2]⟩)
      (decode_selected ((fun k => if k = 0 then ([(xVar 0, (1:Int))], (3:Int))
        else ([], 4)) 0).1) >
      ((KProblem.weight_capacity ⟨[5], [2], 1, [2]⟩ : Nat) : Int) ∧
    sampler_calls ⟨[5], [2], 1, [2]⟩
      (fun k => if k = 0 then ([(xVar 0, 1)], 3) else ([], 4)) 2 0 = 2 :=
  ⟨by decide,
    (claim_C4 ⟨[5], [2], 1, [2]⟩
      (fun k => if k = 0 then ([(xVar 0, 1)], 3) else ([], 4)) 0 0
      (by decide)).2.2 (by decide)⟩

/-- C5: the retry path has no termination guarantee: under a sampler
whose every sample decodes to a total weight above the capacity, the
recursion exhausts any fuel (never terminates), each fuel level issues
one more sampler job, and the number of sampler calls exceeds every
bound. -/
theorem claim_C5 (P : KProblem) (oracle : Oracle)
    (h : ∀ k, total_weight P.xdfW (decode_selected (oracle k).1) >
      (P.weight_capacity : Int)) :
    (∀ fuel k, solve_knapsack P oracle fuel k = none)
    ∧ (∀ fuel k, sampler_calls P oracle fuel k = fuel)
    ∧ (∀ n k, ∃ fuel, n < sampler_calls P oracle fuel k) := by
  have h1 : ∀ fuel k, solve_knapsack P oracle fuel k = none := by
    intro fuel
    induction fuel with
    | zero => intro k; rfl
    | succ fuel ih =>
      intro k
      simp only [solve_knapsack]
      rw [if_pos (h k), ih (k+1)]
  have h2 : ∀ fuel k, sampler_calls P oracle fuel k = fuel := by
    intro fuel
    induction fuel with
    | zero => intro k; rfl
    | succ fuel ih =>
      intro k
      simp only [sampler_calls]
      rw [if_pos (h k), ih (k+1)]
      omega
  exact ⟨h1, h2, fun n k => ⟨n+1, by rw [h2 (n+1) k]; omega⟩⟩

theorem claim_C5_witness :
    (∀ _k : Nat, total_weight [(2:Int)] (decode_selected [(xVar 0, (1:Int))]) >
      ((1:Nat) : Int)) ∧
    solve_knapsack ⟨[5], [2], 1, [2]⟩
      (fun _ => ([(xVar 0, 1)], 3)) 5 0 = none ∧
    sampler_calls ⟨[5], [2], 1, [2]⟩
      (fun _ => ([(xVar 0, 1)], 3)) 4 0 = 4 := by
  have hbad : ∀ _k : Nat, total_weight [(2:Int)]
      (decode_selected [(xVar 0, (1:Int))]) > ((1:Nat) : Int) := fun _ => by decide
  have h := claim_C5 ⟨[5], [2], 1, [2]⟩ (fun _ => ([(xVar 0, 1)], 3)) hbad
  exact ⟨hbad, h.1 5 0, h.2.1 4 0⟩

/-- C6: if the first decoded sample violates the capacity,
`solve_knapsack` returns Python `None` even when the retry succeeds (the
recursive call's value is discarded), so the caller `knapsackSolver`,
which unpacks the result into two variables, receives `None` (a
`TypeError` at the unpack) although the second attempt's own return
value was a feasible tuple. -/
theorem claim_C6 (df : DataFrame) (wt_cap : Nat) (oracle : Oracle) (fuel : Nat)
    (h0 : total_weight (mkProblem df wt_cap).xdfW
      (decode_selected (oracle 0).1) > (wt_cap : Int))
    (h1 : ¬ total_weight (mkProblem df wt_cap).xdfW
      (decode_selected (oracle 1).1) > (wt_cap : Int)) :
    solve_knapsack (mkProblem df wt_cap) oracle (fuel+2) 0 = some none
    ∧ solve_knapsack (mkProblem df wt_cap) oracle (fuel+1) 1 =
        some (some (List.insertionSort (· ≤ ·) (decode_selected (oracle 1).1),
          (oracle 1).2))
    ∧ knapsackSolver df wt_cap oracle (fuel+2) = some none := by
  have hs1 := solve_knapsack_feasible_step (mkProblem df wt_cap) oracle fuel 1 h1
  have hs0 : solve_knapsack (mkProblem df wt_cap) oracle (fuel+2) 0 = some none := by
    rw [solve_knapsack_infeasible_step (mkProblem df wt_cap) oracle (fuel+1) 0 h0,
      hs1]
  refine ⟨hs0, hs1, ?_⟩
  simp only [knapsackSolver]
  rw [hs0]

theorem claim_C6_witness :
    (total_weight (mkProblem ⟨[5], [2]⟩ 1).xdfW
      (decode_selected ((fun k => if k = 0 then ([(xVar 0, (1:Int))], (3:Int))
        else ([], 4)) 0).1) > ((1:Nat) : Int)) ∧
    solve_knapsack (mkProblem ⟨[5], [2]⟩ 1)
      (fun k => if k = 0 then ([(xVar 0, 1)], 3) else ([], 4)) 2 0 = some none ∧
    knapsackSolver ⟨[5], [2]⟩ 1
      (fun k => if k = 0 then ([(xVar 0, 1)], 3) else ([], 4)) 2 = some none :=
  ⟨by decide,
    (claim_C6 ⟨[5], [2]⟩ 1
      (fun k => if k = 0 then ([(xVar 0, 1)], 3) else ([], 4)) 0
      (by decide) (by decide)).1,
    (claim_C6 ⟨[5], [2]⟩ 1
      (fun k => if k = 0 then ([(xVar 0, 1)], 3) else ([], 4)) 0
      (by decide) (by decide)).2.2⟩

theorem slack_y_length (W : Nat) : (slack_y W).length = Nat.log 2 W + 1 := by
  simp [slack_y]

theorem slack_y_getD_lt (W : Nat) {j : Nat} (hj : j < Nat.log 2 W) :
    (slack_y W).getD j 0 = 2 ^ j := by
  unfold slack_y
  rw [List.getD_append _ _ _ _ (by simpa using hj)]
  rw [List.getD_eq_getElem _ _ (by simpa using hj)]
  simp

theorem slack_y_getD_last (W : Nat) :
    (slack_y W).getD (Nat.log 2 W) 0 =
      (W : Int) + 1 - 2 ^ (Nat.log 2 W) := by
  unfold slack_y
  rw [List.getD_append_right _ _ _ _ (by simp)]
  simp

theorem slack_y_sum (W : Nat) : (slack_y W).sum = (W : Int) := by
  unfold slack_y
  rw [List.sum_append, sum_map_range]
  have hgeom : (∑ i ∈ Finset.range (Nat.log 2 W), (2:Int) ^ i) =
      2 ^ (Nat.log 2 W) - 1 := by
    have h := geom_sum_mul (2:Int) (Nat.log 2 W)
    simpa using h
  rw [hgeom]
  simp only [List.sum_cons, List.sum_nil, add_zero]
  ring

theorem bits_rep : ∀ (M s : Nat), s < 2 ^ M →
    ∃ b : Nat → Int, (∀ j, b j = 0 ∨ b j = 1) ∧
      (∑ j ∈ Finset.range M, (2:Int) ^ j * b j) = (s : Int) := by
  intro M
  induction M with
  | zero =>
    intro s hs
    interval_cases s
    exact ⟨fun _ => 0, fun _ => Or.inl rfl, by simp⟩
  | succ M ih =>
    intro s hs
    by_cases h : s < 2 ^ M
    · obtain ⟨b, hb, hsum⟩ := ih s h
      have hcong : (∑ j ∈ Finset.range (M+1),
          (2:Int) ^ j * (if j = M then 0 else b j)) = (s : Int) := by
        rw [Finset.sum_range_succ]
        rw [if_pos (rfl : M = M), mul_zero, add_zero]
        rw [← hsum]
        refine Finset.sum_congr rfl ?_
        intro j hj
        have hne : j ≠ M := by
          have := Finset.mem_range.mp hj
          omega
        simp [hne]
      refine ⟨fun j => if j = M then 0 else b j, ?_, hcong⟩
      intro j
      by_cases hj : j = M
      · simp [hj]
      · simpa [hj] using hb j
    · push_neg at h
      have hpow : 2 ^ (M + 1) = 2 ^ M * 2 := Nat.pow_succ ..
      have h2 : s - 2 ^ M < 2 ^ M := by omega
      obtain ⟨b, hb, hsum⟩ := ih (s - 2 ^ M) h2
      have hcong : (∑ j ∈ Finset.range (M+1),
          (2:Int) ^ j * (if j = M then 1 else b j)) = (s : Int) := by
        rw [Finset.sum_range_succ]
        rw [if_pos (rfl : M = M), mul_one]
        have hmid : (∑ j ∈ Finset.range M,
            (2:Int) ^ j * (if j = M then 1 else b j)) =
            ∑ j ∈ Finset.range M, (2:Int) ^ j * b j := by
          refine Finset.sum_congr rfl ?_
          intro j hj
          have hne : j ≠ M := by
            have := Finset.mem_range.mp hj
            omega
          simp [hne]
        rw [hmid, hsum, Nat.cast_sub h]
        push_cast
        ring
      refine ⟨fun j => if j = M then 1 else b j, ?_, hcong⟩
      intro j
      by_cases hj : j = M
      · simp [hj]
      · simpa [hj] using hb j

/-- C7: for every capacity `W ≥ 1`, the slack coefficient list
`y = [2^0, …, 2^(M-1), W + 1 - 2^M]` built by `build_knapsack_bqm`
(`M = floor(log2 W)`) has `M + 1` entries summing to exactly `W`, and
every integer `0 ≤ s ≤ W` is a 0/1 combination of its entries. -/
theorem claim_C7 (W : Nat) (hW : 1 ≤ W) :
    (slack_y W).length = Nat.log 2 W + 1
    ∧ (slack_y W).sum = (W : Int)
    ∧ ∀ s : Int, 0 ≤ s → s ≤ (W : Int) →
        ∃ b : Nat → Int, (∀ j, b j = 0 ∨ b j = 1) ∧
          (∑ j ∈ Finset.range (Nat.log 2 W + 1), (slack_y W).getD j 0 * b j) = s := by
  refine ⟨slack_y_length W, slack_y_sum W, ?_⟩
  intro s hs0 hsW
  have hMle : 2 ^ Nat.log 2 W ≤ W := Nat.pow_log_le_self 2 (by omega)
  have hMlt : W < 2 ^ (Nat.log 2 W + 1) := Nat.lt_pow_succ_log_self one_lt_two W
  have hpow : 2 ^ (Nat.log 2 W + 1) = 2 ^ Nat.log 2 W * 2 := Nat.pow_succ ..
  have hst : ((s.toNat : Nat) : Int) = s := Int.toNat_of_nonneg hs0
  have htW : s.toNat ≤ W := by omega
  by_cases hcase : s.toNat < 2 ^ Nat.log 2 W
  · obtain ⟨b, hb, hsum⟩ := bits_rep (Nat.log 2 W) s.toNat hcase
    have hcong : (∑ j ∈ Finset.range (Nat.log 2 W + 1),
        (slack_y W).getD j 0 * (if j = Nat.log 2 W then 0 else b j)) = s := by
      rw [Finset.sum_range_succ]
      rw [if_pos (rfl : Nat.log 2 W = Nat.log 2 W), mul_zero, add_zero]
      rw [← hst, ← hsum]
      refine Finset.sum_congr rfl ?_
      intro j hj
      have hjM : j < Nat.log 2 W := Finset.mem_range.mp hj
      have hne : j ≠ Nat.log 2 W := by omega
      rw [slack_y_getD_lt W hjM]
      simp [hne]
    refine ⟨fun j => if j = Nat.log 2 W then 0 else b j, ?_, hcong⟩
    intro j
    by_cases hj : j = Nat.log 2 W
    · simp [hj]
    · simpa [hj] using hb j
  · push_neg at hcase
    have hc_le : W + 1 - 2 ^ Nat.log 2 W ≤ s.toNat := by omega
    have h2 : s.toNat - (W + 1 - 2 ^ Nat.log 2 W) < 2 ^ Nat.log 2 W := by omega
    obtain ⟨b, hb, hsum⟩ := bits_rep (Nat.log 2 W)
      (s.toNat - (W + 1 - 2 ^ Nat.log 2 W)) h2
    have hcong : (∑ j ∈ Finset.range (Nat.log 2 W + 1),
        (slack_y W).getD j 0 * (if j = Nat.log 2 W then 1 else b j)) = s := by
      rw [Finset.sum_range_succ]
      rw [if_pos (rfl : Nat.log 2 W = Nat.log 2 W), mul_one]
      have hmid : (∑ j ∈ Finset.range (Nat.log 2 W),
          (slack_y W).getD j 0 * (if j = Nat.log 2 W then 1 else b j)) =
          ∑ j ∈ Finset.range (Nat.log 2 W), (2:Int) ^ j * b j := by
        refine Finset.sum_congr rfl ?_
        intro j hj
        have hjM : j < Nat.log 2 W := Finset.mem_range.mp hj
        have hne : j ≠ Nat.log 2 W := by omega
        rw [slack_y_getD_lt W hjM]
        simp [hne]
      have hcast : ((W + 1 - 2 ^ Nat.log 2 W : Nat) : Int) =
          (W : Int) + 1 - (2:Int) ^ Nat.log 2 W := by
        rw [Nat.cast_sub (by omega)]
        push_cast
        ring
      rw [hmid, hsum, slack_y_getD_last W, Nat.cast_sub hc_le, hcast]
      omega
    refine ⟨fun j => if j = Nat.log 2 W then 1 else b j, ?_, hcong⟩
    intro j
    by_cases hj : j = Nat.log 2 W
    · simp [hj]
    · simpa [hj] using hb j

theorem claim_C7_witness :
    (1 ≤ 5 ∧ (slack_y 5).sum = ((5:Nat) : Int)) ∧
    ∃ b : Nat → Int, (∀ j, b j = 0 ∨ b j = 1) ∧
      (∑ j ∈ Finset.range (Nat.log 2 5 + 1), (slack_y 5).getD j 0 * b j) = (3 : Int) :=
  ⟨⟨by omega, (claim_C7 5 (by omega)).2.1⟩,
    (claim_C7 5 (by omega)).2.2 3 (by omega) (by omega)⟩

/-- C8: apart from the capacity retry, no failure is handled anywhere:
an empty costs list (`max()` raises `ValueError`), a non-positive
capacity (`floor(log2 ...)` raises `ValueError`), a file-read failure,
a failing remote vendor call — even one occurring inside a retry —
all propagate unhandled through `solve_knapsack` and `knapsackSolver`
to the process boundary. -/
theorem claim_C8 :
    (∀ (df : DataFrame) (wt_cap : Nat) (oracle : OracleE) (fuel : Nat),
      df.cost = [] →
      knapsackSolverE (.ok df) wt_cap oracle (fuel+1) =
        some (.error (.valueError "max() arg is an empty sequence")))
    ∧ (∀ (df : DataFrame) (oracle : OracleE) (fuel : Nat),
      df.cost ≠ [] →
      knapsackSolverE (.ok df) 0 oracle (fuel+1) =
        some (.error (.valueError "math domain error")))
    ∧ (∀ (e : PyErr) (wt_cap : Nat) (oracle : OracleE) (fuel : Nat),
      knapsackSolverE (.error e) wt_cap oracle fuel = some (.error e))
    ∧ (∀ (df : DataFrame) (wt_cap : Nat) (oracle : OracleE) (fuel : Nat)
        (e : PyErr),
      df.cost ≠ [] → 1 ≤ wt_cap → oracle 0 = .error e →
      knapsackSolverE (.ok df) wt_cap oracle (fuel+1) = some (.error e))
    ∧ (∀ (df : DataFrame) (wt_cap : Nat) (oracle : OracleE) (fuel : Nat)
        (e : PyErr) (s0 : Sample) (en0 : Int),
      df.cost ≠ [] → 1 ≤ wt_cap → oracle 0 = .ok (s0, en0) →
      total_weight df.weight (decode_selected s0) > (wt_cap : Int) →
      oracle 1 = .error e →
      knapsackSolverE (.ok df) wt_cap oracle (fuel+2) = some (.error e)) := by
  refine ⟨?_, ?_, ?_, ?_, ?_⟩
  · intro df wt_cap oracle fuel h
    simp [knapsackSolverE, solve_knapsackE, build_knapsack_bqmE, mkProblem, h]
  · intro df oracle fuel h
    simp [knapsackSolverE, solve_knapsackE, build_knapsack_bqmE, mkProblem, h]
  · intro e wt_cap oracle fuel
    simp [knapsackSolverE]
  · intro df wt_cap oracle fuel e hc hw1 ho
    have hw : ¬ ((wt_cap : Int) ≤ 0) := by
      have h1 : (1 : Int) ≤ (wt_cap : Int) := by exact_mod_cast hw1
      omega
    simp [knapsackSolverE, solve_knapsackE, build_knapsack_bqmE, mkProblem,
      hc, hw, ho]
  · intro df wt_cap oracle fuel e s0 en0 hc hw1 ho0 hinf ho1
    have hw : ¬ ((wt_cap : Int) ≤ 0) := by
      have h1 : (1 : Int) ≤ (wt_cap : Int) := by exact_mod_cast hw1
      omega
    simp [knapsackSolverE, solve_knapsackE, build_knapsack_bqmE, mkProblem,
      hc, hw, ho0, ho1, hinf]

theorem claim_C8_witness :
    knapsackSolverE (.ok ⟨[], []⟩) 5
        (fun _ => .error (.vendorError "boom")) 1 =
      some (.error (.valueError "max() arg is an empty sequence")) ∧
    knapsackSolverE (.ok ⟨[1], [1]⟩) 0 (fun _ => .ok ([], 0)) 1 =
      some (.error (.valueError "math domain error")) ∧
    knapsackSolverE (.error (.ioError "no such file")) 5
        (fun _ => .ok ([], 0)) 3 =
      some (.error (.ioError "no such file")) ∧
    knapsackSolverE (.ok ⟨[1], [1]⟩) 5
        (fun _ => .error (.vendorError "job failed")) 1 =
      some (.error (.vendorError "job failed")) ∧
    knapsackSolverE (.ok ⟨[1], [2]⟩) 1
        (fun k => if k = 0 then .ok ([(xVar 0, 1)], 3)
          else .error (.vendorError "retry failed")) 2 =
      some (.error (.vendorError "retry failed")) :=
  ⟨claim_C8.1 ⟨[], []⟩ 5 (fun _ => .error (.vendorError "boom")) 0 rfl,
    claim_C8.2.1 ⟨[1], [1]⟩ (fun _ => .ok ([], 0)) 0 (by decide),
    claim_C8.2.2.1 (.ioError "no such file") 5 (fun _ => .ok ([], 0)) 3,
    claim_C8.2.2.2.1 ⟨[1], [1]⟩ 5 (fun _ => .error (.vendorError "job failed"))
      0 (.vendorError "job failed") (by decide) (by omega) rfl,
    claim_C8.2.2.2.2 ⟨[1], [2]⟩ 1
      (fun k => if k = 0 then .ok ([(xVar 0, 1)], 3)
        else .error (.vendorError "retry failed")) 0
      (.vendorError "retry failed") [(xVar 0, 1)] 3
      (by decide) (by omega) rfl (by decide) rfl⟩

/-- C9: the inputs are never mutated: every (retry) invocation of
`solve_knapsack` operates on argument values equal to the originals, and
the summary lists `knapsackSolver` prints are computed from the same
dataframe columns it read from disk. -/
theorem claim_C9 (P : KProblem) (oracle : Oracle) (fuel k : Nat) :
    (∀ Q ∈ invocation_args P oracle fuel k, Q = P)
    ∧ (∀ (df : DataFrame) (wt_cap : Nat) (idxs : List Nat) (e : Int)
        (ws cs : List Int),
      knapsackSolver df wt_cap oracle fuel = some (some (idxs, e, ws, cs)) →
      ws = idxs.map (fun i => df.weight.getD i 0) ∧
      cs = idxs.map (fun i => df.cost.getD i 0)) := by
  constructor
  · induction fuel generalizing k with
    | zero => intro Q hQ; exact absurd hQ (List.not_mem_nil Q)
    | succ fuel ih =>
      intro Q hQ
      rcases List.mem_cons.mp hQ with rfl | hQ'
      · rfl
      · by_cases hcond : total_weight P.xdfW (decode_selected (oracle k).1) >
          (P.weight_capacity : Int)
        · rw [invocation_args, if_pos hcond] at hQ
          rcases List.mem_cons.mp hQ with rfl | hQ''
          · rfl
          · exact ih (k+1) Q hQ''
        · rw [invocation_args, if_neg hcond] at hQ
          rcases List.mem_cons.mp hQ with rfl | hQ''
          · rfl
          · exact absurd hQ'' (List.not_mem_nil Q)
  · intro df wt_cap idxs e ws cs h
    unfold knapsackSolver at h
    cases hs : solve_knapsack (mkProblem df wt_cap) oracle fuel 0 with
    | none => rw [hs] at h; exact absurd h (by simp)
    | some o =>
      cases o with
      | none => rw [hs] at h; simp at h
      | some r =>
        obtain ⟨idxs', e'⟩ := r
        rw [hs] at h
        simp only [Option.some.injEq, Prod.mk.injEq] at h
        obtain ⟨h1, _, h3, h4⟩ := h
        subst h1
        exact ⟨h3.symm, h4.symm⟩

theorem claim_C9_witness :
    ((⟨[5], [1], 1, [1]⟩ : KProblem) ∈
      invocation_args ⟨[5], [1], 1, [1]⟩ (fun _ => ([(xVar 0, 1)], 5)) 1 0) ∧
    ((⟨[5], [1], 1, [1]⟩ : KProblem) = ⟨[5], [1], 1, [1]⟩) ∧
    (knapsackSolver ⟨[5], [1]⟩ 1 (fun _ => ([(xVar 0, 1)], 5)) 1 =
      some (some ([0], 5, [1], [5]))) ∧
    (([1] : List Int) = [0].map (fun i =>
        (DataFrame.weight ⟨[5], [1]⟩).getD i 0) ∧
      ([5] : List Int) = [0].map (fun i =>
        (DataFrame.cost ⟨[5], [1]⟩).getD i 0)) :=
  ⟨by decide,
    (claim_C9 ⟨[5], [1], 1, [1]⟩ (fun _ => ([(xVar 0, 1)], 5)) 1 0).1
      ⟨[5], [1], 1, [1]⟩ (by decide),
    by decide,
    (claim_C9 ⟨[5], [1], 1, [1]⟩ (fun _ => ([(xVar 0, 1)], 5)) 1 0).2
      ⟨[5], [1]⟩ 1 [0] 5 [1] [5] (by decide)⟩

/-- C10 (counterexample): contrary to the claim that no intermediate
result is deterministic, offline-computable and reproducible, the BQM
built from fixed costs, weights and capacity is a concrete literal,
computed with no remote call: a golden-output test. -/
theorem claim_C10_counterexample :
    build_knapsack_bqm [2, 3] [1, 2] 2 =
      { linear := [(xVar 0, 1), (xVar 1, 9), (yVar 0, 3), (yVar 1, 3)],
        quadratic := [((xVar 0, xVar 1), 12), ((yVar 0, yVar 1), 6),
          ((xVar 0, yVar 0), -6), ((xVar 0, yVar 1), -6),
          ((xVar 1, yVar 0), -12), ((xVar 1, yVar 1), -12)] } := by
  have hlog : Nat.log 2 2 = 1 :=
    Nat.log_eq_of_pow_le_of_lt_pow (by norm_num) (by norm_num)
  simp only [build_knapsack_bqm, slack_y, hlog]
  decide

/-- C10 (amended): the end-to-end solver output depends on the remote
service only through the sampler oracle — oracles that agree give equal
runs — while the BQM construction itself is a deterministic, offline
computable function of its inputs (a second golden-output instance). -/
theorem claim_C10 :
    (∀ (P : KProblem) (o₁ o₂ : Oracle), (∀ k, o₁ k = o₂ k) →
      ∀ fuel k, solve_knapsack P o₁ fuel k = solve_knapsack P o₂ fuel k)
    ∧ build_knapsack_bqm [2, 3] [1, 2] 3 =
      { linear := [(xVar 0, 1), (xVar 1, 9), (yVar 0, 3), (yVar 1, 12)],
        quadratic := [((xVar 0, xVar 1), 12), ((yVar 0, yVar 1), 12),
          ((xVar 0, yVar 0), -6), ((xVar 0, yVar 1), -12),
          ((xVar 1, yVar 0), -12), ((xVar 1, yVar 1), -24)] } := by
  constructor
  · intro P o₁ o₂ h fuel k
    have ho : o₁ = o₂ := funext h
    rw [ho]
  · have hlog : Nat.log 2 3 = 1 :=
      Nat.log_eq_of_pow_le_of_lt_pow (by norm_num) (by norm_num)
    simp only [build_knapsack_bqm, slack_y, hlog]
    decide

theorem claim_C10_witness :
    (∀ k : Nat, (fun _ : Nat => (([] : Sample), (0:Int))) k =
      (fun _ : Nat => (([] : Sample), (0:Int))) k) ∧
    solve_knapsack ⟨[1], [1], 1, [1]⟩ (fun _ => ([], 0)) 1 0 =
      solve_knapsack ⟨[1], [1], 1, [1]⟩ (fun _ => ([], 0)) 1 0 :=
  ⟨fun _ => rfl,
    claim_C10.1 ⟨[1], [1], 1, [1]⟩ (fun _ => ([], 0)) (fun _ => ([], 0))
      (fun _ => rfl) 1 0⟩
